import Mathlib

/-!
# Evm-Autotf: the dispatch-and-confirmation loop of `main.js`

A shallow embedding of `src/main.js`:

* `retry` (lines 18-30), the bounded retry wrapper around every network call;
* the body of `main` from the per-wallet loop on (lines 62-160): the balance
  gate, the transfer loop, the amount computation and the receipt poll.

Asynchronous calls are sequential in the source (every promise is awaited at
once), so an operation is a function from the state of the network to a
result, the next state and the console lines it printed.  A JavaScript
exception is `Except.error`; a value that may be `undefined`/`null` is an
`Option`.
-/

namespace AutoTf

/-! ## Data -/

/-- An account address (20 bytes, read as a number). -/
abbrev Address := Nat

/-- A transaction hash (32 bytes, read as a number). -/
abbrev TxHash := Nat

/-- A secret signing key, one entry of `privateKeys.json`. -/
abbrev PrivateKey := Nat

/-- A thrown JavaScript error; only `error.message` is ever read. -/
structure JsError where
  message : String
  deriving DecidableEq, Repr

/-- The transaction response of `transfer`; only `tx.hash` is read. -/
structure Tx where
  hash : TxHash
  deriving DecidableEq, Repr

/-- A transaction receipt; only `status` and `blockNumber` are read.
`status` is `number | null` in ethers. -/
structure Receipt where
  status : Option Int
  blockNumber : Nat
  deriving DecidableEq, Repr

/-- The three network operations the script performs. -/
inductive NetCall where
  | balanceOf (owner : Address)
  | transfer (sender receiver : Address) (amount : Int)
  | getTransactionReceipt (hash : TxHash)
  deriving DecidableEq, Repr

/-- What the run does that an observer can see: one entry per invocation of a
network operation, per `sleep`, and per console message. -/
inductive Event where
  /-- One invocation of a network operation (made inside `retry`). -/
  | call (c : NetCall)
  /-- Lines 24-26: "Error occurred. Retrying... (attempt/maxRetries)". -/
  | retrying (attempt maxRetries : Int)
  /-- An awaited `sleep(ms)`. -/
  | sleep (ms : Int)
  /-- Lines 66-68: "Processing transactions for address". -/
  | processing (sender : Address)
  /-- Lines 76-80: "Failed to check token balance ... Skipping". -/
  | balanceCheckFailed (sender : Address)
  /-- Lines 85-87: "Insufficient or zero token balance. Skipping". -/
  | insufficientBalance
  /-- Lines 94-96: "Generated address i". -/
  | generated (i : Int) (receiver : Address)
  /-- Lines 109-111: "Failed to send transaction". -/
  | sendFailed (message : String)
  /-- Lines 115-125: the summary of a submitted transaction. -/
  | submitted (i : Int) (hash : TxHash) (sender receiver : Address) (amount : Int)
  /-- Lines 135-136: "Transaction Success!" and the block number. -/
  | confirmed (blockNumber : Nat)
  /-- Line 138: "Transaction FAILED". -/
  | reverted
  /-- Lines 141-145: "Transaction is still pending after multiple retries." -/
  | pending
  /-- Lines 148-150: "Error checking transaction status". -/
  | statusError (message : String)
  /-- Lines 154-156: "Finished transactions for address". -/
  | finished (sender : Address)
  /-- Line 159: "All transactions completed." -/
  | allCompleted
  /-- Line 164: "An unexpected error occurred". -/
  | unexpectedError (message : String)
  deriving DecidableEq, Repr

/-- The outcome of running a piece of the script from a network state: its
result, the network state it leaves, and the events in the order they
happened. -/
structure Run (σ β : Type) where
  result : β
  net : σ
  log : List Event

/-- A zero-argument fallible asynchronous operation, as `retry` receives it.
It resolves with a value or `undefined`/`null` (`none`), or rejects. -/
abbrev Op (σ α : Type) := σ → Run σ (Except JsError (Option α))

/-! ## `retry` (lines 15-30) -/

/-- Line 15. -/
def MAX_RETRIES : Int := 5

/-- Line 16. -/
def RETRY_DELAY : Int := 1000

/-- The `for (let i = 0; i < maxRetries; i++)` loop of `retry`, from counter
`i`.  The first argument bounds the iterations still to run; `retry` starts it
at `maxRetries`, the number of iterations the loop has at `i = 0`. -/
def retryLoop {σ α : Type} (fn : Op σ α) (maxRetries delay : Int) :
    Nat → Int → σ → Run σ (Except JsError (Option α))
  | 0, _, s => ⟨.ok none, s, []⟩
  | n + 1, i, s =>
    if i < maxRetries then
      match fn s with
      | ⟨.ok v, s1, l⟩ => ⟨.ok v, s1, l⟩
      | ⟨.error e, s1, l⟩ =>
        if i = maxRetries - 1 then ⟨.error e, s1, l⟩
        else
          let r := retryLoop fn maxRetries delay n (i + 1) s1
          ⟨r.result, r.net, l ++ [Event.retrying (i + 1) maxRetries, Event.sleep delay] ++ r.log⟩
    else ⟨.ok none, s, []⟩

/-- Lines 18-30: `retry(fn, maxRetries, delay)`.  Falling out of the loop
returns `undefined`. -/
def retry {σ α : Type} (fn : Op σ α) (maxRetries delay : Int) (s : σ) :
    Run σ (Except JsError (Option α)) :=
  retryLoop fn maxRetries delay maxRetries.toNat 0 s

/-- An invocation of a network operation `f` as the closure handed to `retry`
(`() => tokenContract.balanceOf(senderAddress)` and the like): it runs `f` on
the network and is recorded as one `Event.call c`. -/
def invoke {σ α : Type} (c : NetCall) (f : σ → Except JsError (Option α) × σ) : Op σ α :=
  fun s => ⟨(f s).1, (f s).2, [Event.call c]⟩

/-- The state of the network after `j` invocations of `f` from `s`. -/
def netAfter {σ α : Type} (f : σ → Except JsError (Option α) × σ) (s : σ) (j : Nat) : σ :=
  (fun t => (f t).2)^[j] s

/-- The events of a `retry` whose operation `c` is invoked `k + 1` times: each
of the first `k` invocations is followed by the warning and the sleep. -/
def retryTrace (c : NetCall) (maxRetries delay : Int) (k : Nat) : List Event :=
  (List.range k).flatMap
      (fun j => [Event.call c, Event.retrying ((j : Int) + 1) maxRetries, Event.sleep delay])
    ++ [Event.call c]

/-- The events of the loop of `retry` entered at counter `i`, when the operation
is invoked `k + 1` times from there. -/
def retryTraceFrom (c : NetCall) (maxRetries delay : Int) : Int → Nat → List Event
  | _, 0 => [Event.call c]
  | i, k + 1 =>
    [Event.call c, Event.retrying (i + 1) maxRetries, Event.sleep delay]
      ++ retryTraceFrom c maxRetries delay (i + 1) k

/-! ## Observations on the event log -/

/-- An invocation of a network operation. -/
def Event.isCall : Event → Bool
  | .call _ => true
  | _ => false

/-- The warning of `retry`. -/
def Event.isWarning : Event → Bool
  | .retrying _ _ => true
  | _ => false

/-- A `sleep`. -/
def Event.isSleep : Event → Bool
  | .sleep _ => true
  | _ => false

/-- An invocation of `transfer`. -/
def Event.isTransferCall : Event → Bool
  | .call (.transfer _ _ _) => true
  | _ => false

/-- An invocation of `getTransactionReceipt`. -/
def Event.isReceiptCall : Event → Bool
  | .call (.getTransactionReceipt _) => true
  | _ => false

/-- A recipient generation. -/
def Event.isGenerated : Event → Bool
  | .generated _ _ => true
  | _ => false

/-- The end of a dispatch: the transaction was submitted, or the dispatch gave up. -/
def Event.isDispatchEnd : Event → Bool
  | .sendFailed _ => true
  | .submitted _ _ _ _ _ => true
  | _ => false

/-- A report of the receipt poll. -/
def Event.isPollReport : Event → Bool
  | .confirmed _ => true
  | .reverted => true
  | .pending => true
  | .statusError _ => true
  | _ => false

/-- The loop counter of a recipient generation. -/
def Event.generatedIndex : Event → Option Int
  | .generated i _ => some i
  | _ => none

/-- The wallet whose processing starts. -/
def Event.processedSender : Event → Option Address
  | .processing a => some a
  | _ => none

/-! ## Numbers: binary64 arithmetic, `toFixed`, `parseUnits`

A JavaScript number that is finite is the rational it denotes; `*`, `+` and
`-` compute the exact result and round it to binary64, to nearest with ties to
even (ECMAScript, Number::multiply, Number::add).  All operands in `main` are
bounded by 15 in magnitude, far from the overflow threshold, so infinities and
NaN do not arise and are not represented; `-0` is read as `0`, which `+ 15`
cannot tell apart. -/

/-- Round to the nearest integer, a tie going to the even neighbour. -/
def roundHalfEven (q : ℚ) : ℤ :=
  if q - ⌊q⌋ < 1 / 2 then ⌊q⌋
  else if 1 / 2 < q - ⌊q⌋ then ⌊q⌋ + 1
  else if ⌊q⌋ % 2 = 0 then ⌊q⌋ else ⌊q⌋ + 1

/-- The exponent of the unit in the last place of binary64 at `x`: 52 binary
digits below the leading one, and never below `2^-1074` (subnormal range). -/
def ulpExp (x : ℚ) : ℤ := max (Int.log 2 |x|) (-1022) - 52

/-- Rounding of an exact result to binary64, round-to-nearest, ties-to-even. -/
def roundDouble (x : ℚ) : ℚ := roundHalfEven (x / 2 ^ ulpExp x) * 2 ^ ulpExp x

/-- JavaScript `a * b` on finite numbers. -/
def jsMul (a b : ℚ) : ℚ := roundDouble (a * b)

/-- JavaScript `a + b` on finite numbers. -/
def jsAdd (a b : ℚ) : ℚ := roundDouble (a + b)

/-- JavaScript `a - b` on finite numbers. -/
def jsSub (a b : ℚ) : ℚ := roundDouble (a - b)

/-- A decimal string with `scale` digits after the point, denoting
`mantissa / 10 ^ scale`: what `toFixed` prints and `parseUnits` reads. -/
structure Decimal where
  mantissa : Int
  scale : Nat
  deriving DecidableEq, Repr

/-- The method `Number.prototype.toFixed(digits)` for `|x| < 10^21`: the sign is split
off, and of the integers `n` with `n / 10^digits` nearest to `|x|` the larger
one is taken. -/
def toFixed (x : ℚ) (digits : Nat) : Decimal :=
  if x < 0 then ⟨-⌊-x * 10 ^ digits + 1 / 2⌋, digits⟩
  else ⟨⌊x * 10 ^ digits + 1 / 2⌋, digits⟩

/-- The function `ethers.parseUnits(value, decimals)`: the decimal string scaled to base
units; a string with more fractional digits than `decimals` is rejected. -/
def parseUnits (value : Decimal) (decimals : Nat) : Except JsError Int :=
  if value.scale ≤ decimals then .ok (value.mantissa * 10 ^ (decimals - value.scale))
  else .error ⟨"too many decimals for format"⟩

/-- Line 99: `Math.random() * (5 - 10) + 15`, for the draw `r`. -/
def amountNumber (r : ℚ) : ℚ := jsAdd (jsMul r (jsSub 5 10)) 15

/-- Lines 98-101: `amountToSend`, in base units. -/
def amountToSend (r : ℚ) : Except JsError Int := parseUnits (toFixed (amountNumber r) 6) 18

/-- Line 84: the threshold, `parseUnits` of the string 0.0001 at 18 decimals. -/
def minBalance : Except JsError Int := parseUnits ⟨1, 4⟩ 18

/-! ## `main` (lines 62-160) -/

/-- Everything outside the script that `main` calls: the wallet constructor,
the token contract, the provider and the two random sources.  `σ` is the state
of the outside world (chain, node, entropy). -/
structure Env (σ : Type) where
  /-- Line 63-64, `new ethers.Wallet(privateKey, provider).address`: throws on a
  malformed key. -/
  walletAddress : PrivateKey → Except JsError Address
  /-- Line 73, `tokenContract.balanceOf(owner)`: a `uint256` or a rejection. -/
  balanceOf : Address → σ → Except JsError Nat × σ
  /-- Line 106, `tokenContract.connect(wallet).transfer(to, amount)`. -/
  transfer : Address → Address → Int → σ → Except JsError Tx × σ
  /-- Line 132, `provider.getTransactionReceipt(hash)`: `null` when the
  transaction is not yet mined. -/
  getTransactionReceipt : TxHash → σ → Except JsError (Option Receipt) × σ
  /-- Line 92, `ethers.Wallet.createRandom().address`. -/
  createRandom : σ → Address × σ
  /-- Line 99, `Math.random()`. -/
  random : σ → ℚ × σ

/-- Lines 72-74: the closure `() => tokenContract.balanceOf(senderAddress)`. -/
def balanceOfOp {σ : Type} (env : Env σ) (owner : Address) : Op σ Nat :=
  invoke (NetCall.balanceOf owner)
    (fun s => ((env.balanceOf owner s).1.map some, (env.balanceOf owner s).2))

/-- Lines 105-107: the closure around `transfer(receiverAddress, amountToSend)`. -/
def transferOp {σ : Type} (env : Env σ) (sender receiver : Address) (amount : Int) : Op σ Tx :=
  invoke (NetCall.transfer sender receiver amount)
    (fun s => ((env.transfer sender receiver amount s).1.map some,
      (env.transfer sender receiver amount s).2))

/-- Line 132: the closure `() => provider.getTransactionReceipt(tx.hash)`. -/
def receiptOp {σ : Type} (env : Env σ) (hash : TxHash) : Op σ Receipt :=
  invoke (NetCall.getTransactionReceipt hash) (env.getTransactionReceipt hash)

/-- Lines 133-146: the report for what `retry` returned as `receipt`. -/
def classify (receipt : Option Receipt) : Event :=
  match receipt with
  | some r => if r.status = some 1 then Event.confirmed r.blockNumber else Event.reverted
  | none => Event.pending

/-- Lines 130-151: look the receipt up through `retry` and report. -/
def pollReceipt {σ : Type} (env : Env σ) (hash : TxHash) (s : σ) : Run σ Unit :=
  let r := retry (receiptOp env hash) MAX_RETRIES RETRY_DELAY s
  match r.result with
  | .ok receipt => ⟨(), r.net, r.log ++ [classify receipt]⟩
  | .error e => ⟨(), r.net, r.log ++ [Event.statusError e.message]⟩

/-- Lines 103-151: dispatch the transfer through `retry`; on success print the
summary, pause and poll.  `Except.error` is an exception that no `try` of the
iteration catches (`tx.hash` of an `undefined` transaction). -/
def dispatch {σ : Type} (env : Env σ) (sender : Address) (i : Int) (receiver : Address)
    (amount : Int) (s : σ) : Run σ (Except JsError Unit) :=
  let d := retry (transferOp env sender receiver amount) MAX_RETRIES RETRY_DELAY s
  match d.result with
  | .error e => ⟨.ok (), d.net, d.log ++ [Event.sendFailed e.message]⟩
  | .ok none =>
    ⟨.error ⟨"TypeError: cannot read properties of undefined (reading hash)"⟩, d.net, d.log⟩
  | .ok (some tx) =>
    let p := pollReceipt env tx.hash d.net
    ⟨.ok (), p.net,
      d.log ++ [Event.submitted i tx.hash sender receiver amount, Event.sleep 10] ++ p.log⟩

/-- Lines 92-151: one iteration of the transfer loop: generate the recipient,
draw the amount, dispatch.  A throwing `parseUnits` (line 98) is not caught. -/
def transferIteration {σ : Type} (env : Env σ) (sender : Address) (i : Int) (s : σ) :
    Run σ (Except JsError Unit) :=
  let receiver := (env.createRandom s).1
  let s1 := (env.createRandom s).2
  let draw := (env.random s1).1
  let s2 := (env.random s1).2
  match amountToSend draw with
  | .error e => ⟨.error e, s2, [Event.generated i receiver]⟩
  | .ok amount =>
    let r := dispatch env sender i receiver amount s2
    ⟨r.result, r.net, Event.generated i receiver :: r.log⟩

/-- Line 91: the loop `for (let i = 1; i <= transactionCount; i++)`, from
counter `i`.  The first argument bounds the iterations still to run. -/
def transferLoop {σ : Type} (env : Env σ) (sender : Address) (transactionCount : Int) :
    Nat → Int → σ → Run σ (Except JsError Unit)
  | 0, _, s => ⟨.ok (), s, []⟩
  | n + 1, i, s =>
    if i ≤ transactionCount then
      let a := transferIteration env sender i s
      match a.result with
      | .error e => ⟨.error e, a.net, a.log⟩
      | .ok _ =>
        let b := transferLoop env sender transactionCount n (i + 1) a.net
        ⟨b.result, b.net, a.log ++ b.log⟩
    else ⟨.ok (), s, []⟩

/-- Lines 63-156: the body of the per-wallet loop for one key. -/
def processWallet {σ : Type} (env : Env σ) (transactionCount : Int) (privateKey : PrivateKey)
    (s : σ) : Run σ (Except JsError Unit) :=
  match env.walletAddress privateKey with
  | .error e => ⟨.error e, s, []⟩
  | .ok sender =>
    let b := retry (balanceOfOp env sender) MAX_RETRIES RETRY_DELAY s
    match b.result with
    | .error _ =>
      ⟨.ok (), b.net, [Event.processing sender] ++ b.log ++ [Event.balanceCheckFailed sender]⟩
    | .ok none =>
      ⟨.error ⟨"TypeError: Cannot convert undefined to a BigInt"⟩, b.net,
        [Event.processing sender] ++ b.log⟩
    | .ok (some balance) =>
      match minBalance with
      | .error e => ⟨.error e, b.net, [Event.processing sender] ++ b.log⟩
      | .ok threshold =>
        if (balance : Int) < threshold then
          ⟨.ok (), b.net, [Event.processing sender] ++ b.log ++ [Event.insufficientBalance]⟩
        else
          let t := transferLoop env sender transactionCount transactionCount.toNat 1 b.net
          match t.result with
          | .error e => ⟨.error e, t.net, [Event.processing sender] ++ b.log ++ t.log⟩
          | .ok _ =>
            ⟨.ok (), t.net,
              [Event.processing sender] ++ b.log ++ t.log ++ [Event.finished sender]⟩

/-- Line 62: `for (const privateKey of privateKeys)`. -/
def walletLoop {σ : Type} (env : Env σ) (transactionCount : Int) :
    List PrivateKey → σ → Run σ (Except JsError Unit)
  | [], s => ⟨.ok (), s, []⟩
  | key :: rest, s =>
    let a := processWallet env transactionCount key s
    match a.result with
    | .error e => ⟨.error e, a.net, a.log⟩
    | .ok _ =>
      let b := walletLoop env transactionCount rest a.net
      ⟨b.result, b.net, a.log ++ b.log⟩

/-- Lines 62-166: the run from the per-wallet loop to the exit code, for the
key list and the transaction count read at start-up. -/
def main {σ : Type} (env : Env σ) (privateKeys : List PrivateKey) (transactionCount : Int)
    (s : σ) : Run σ Nat :=
  let w := walletLoop env transactionCount privateKeys s
  match w.result with
  | .ok _ => ⟨0, w.net, w.log ++ [Event.allCompleted]⟩
  | .error e => ⟨1, w.net, w.log ++ [Event.unexpectedError e.message]⟩

/-! ## Concrete operations and environments, for the examples -/

/-- An operation that fails while the network state is below 2 and then
succeeds with 7. -/
def flakyOp : Nat → Except JsError (Option Nat) × Nat :=
  fun n => (if n < 2 then .error ⟨"timeout"⟩ else .ok (some 7), n + 1)

/-- An operation that fails on every invocation, with an error that names the
invocation. -/
def downOp : Nat → Except JsError (Option Nat) × Nat :=
  fun n => (.error ⟨"down at " ++ toString n⟩, n + 1)

/-- An environment over a call counter: every key `k` is valid with address
`k + 100`; wallet 101 holds nothing, wallet 102 holds exactly `10^14` base
units and every other wallet one token; transfers are accepted with the
counter as hash; the receipt lookup is the given one. -/
def counterEnv (lookup : TxHash → Nat → Except JsError (Option Receipt) × Nat) : Env Nat where
  walletAddress := fun k => .ok (k + 100)
  balanceOf := fun a n => (.ok (if a = 101 then 0 else if a = 102 then 10 ^ 14 else 10 ^ 18), n + 1)
  transfer := fun _ _ _ n => (.ok ⟨n⟩, n + 1)
  getTransactionReceipt := lookup
  createRandom := fun n => (n + 5000, n + 1)
  random := fun n => (1 / 2, n + 1)

/-- A lookup that answers "no receipt yet" once and has the receipt afterwards. -/
def lateReceipt : TxHash → Nat → Except JsError (Option Receipt) × Nat :=
  fun _ n => (if n < 1 then .ok none else .ok (some ⟨some 1, 42⟩), n + 1)

/-- A lookup that raises once and has the receipt afterwards. -/
def flakyReceipt : TxHash → Nat → Except JsError (Option Receipt) × Nat :=
  fun _ n => (if n < 1 then .error ⟨"rpc timeout"⟩ else .ok (some ⟨some 1, 42⟩), n + 1)

/-- A lookup that raises on every invocation. -/
def deadReceipt : TxHash → Nat → Except JsError (Option Receipt) × Nat :=
  fun _ n => (.error ⟨"rpc down"⟩, n + 1)

/-- A lookup that has a reverted receipt at once. -/
def revertedReceipt : TxHash → Nat → Except JsError (Option Receipt) × Nat :=
  fun _ n => (.ok (some ⟨some 0, 43⟩), n + 1)

/-- An environment in which every network call is rejected. -/
def deadEnv : Env Nat where
  walletAddress := fun k => .ok (k + 100)
  balanceOf := fun _ n => (.error ⟨"no route"⟩, n + 1)
  transfer := fun _ _ _ n => (.error ⟨"no route"⟩, n + 1)
  getTransactionReceipt := deadReceipt
  createRandom := fun n => (n + 5000, n + 1)
  random := fun n => (1 / 2, n + 1)

/-- An environment in which balances are ample and every transfer is rejected. -/
def rejectingEnv : Env Nat where
  walletAddress := fun k => .ok (k + 100)
  balanceOf := fun _ n => (.ok (10 ^ 18), n + 1)
  transfer := fun _ _ _ n => (.error ⟨"nonce too low"⟩, n + 1)
  getTransactionReceipt := deadReceipt
  createRandom := fun n => (n + 5000, n + 1)
  random := fun n => (1 / 2, n + 1)


/-! # Theorems -/

/-! ## `retry`: unfolding one iteration -/

theorem retryLoop_exit {σ α : Type} (fn : Op σ α) (M d : Int) (n : Nat) (i : Int) (s : σ)
    (hi : ¬ i < M) : retryLoop fn M d n i s = ⟨.ok none, s, []⟩ := by
  cases n with
  | zero => rfl
  | succ n => simp [retryLoop, hi]

theorem retryLoop_ok {σ α : Type} (fn : Op σ α) (M d : Int) (n : Nat) (i : Int) (s : σ)
    (v : Option α) (hi : i < M) (h : (fn s).result = .ok v) :
    retryLoop fn M d (n + 1) i s = ⟨.ok v, (fn s).net, (fn s).log⟩ := by
  rcases hx : fn s with ⟨r, s1, l⟩
  rw [hx] at h
  simp only at h
  subst h
  simp [retryLoop, hi, hx]

theorem retryLoop_last {σ α : Type} (fn : Op σ α) (M d : Int) (n : Nat) (i : Int) (s : σ)
    (e : JsError) (hi : i = M - 1) (h : (fn s).result = .error e) :
    retryLoop fn M d (n + 1) i s = ⟨.error e, (fn s).net, (fn s).log⟩ := by
  rcases hx : fn s with ⟨r, s1, l⟩
  rw [hx] at h
  simp only at h
  subst h
  have hlt : i < M := by omega
  simp [retryLoop, hlt, hx, hi]

theorem retryLoop_again {σ α : Type} (fn : Op σ α) (M d : Int) (n : Nat) (i : Int) (s : σ)
    (e : JsError) (hi : i < M) (hne : i ≠ M - 1) (h : (fn s).result = .error e) :
    retryLoop fn M d (n + 1) i s =
      ⟨(retryLoop fn M d n (i + 1) (fn s).net).result,
        (retryLoop fn M d n (i + 1) (fn s).net).net,
        (fn s).log ++ [Event.retrying (i + 1) M, Event.sleep d]
          ++ (retryLoop fn M d n (i + 1) (fn s).net).log⟩ := by
  rcases hx : fn s with ⟨r, s1, l⟩
  rw [hx] at h
  simp only at h
  subst h
  simp [retryLoop, hi, hx, hne]

theorem netAfter_zero {σ α : Type} (f : σ → Except JsError (Option α) × σ) (s : σ) :
    netAfter f s 0 = s := rfl

theorem netAfter_succ {σ α : Type} (f : σ → Except JsError (Option α) × σ) (s : σ) (j : Nat) :
    netAfter f s (j + 1) = netAfter f (f s).2 j := by
  simp [netAfter, Function.iterate_succ_apply]

theorem retryTraceFrom_zero_eq (c : NetCall) (M d : Int) (k : Nat) :
    ∀ i : Int, retryTraceFrom c M d i k =
      (List.range k).flatMap
          (fun j => [Event.call c, Event.retrying (i + (j : Int) + 1) M, Event.sleep d])
        ++ [Event.call c] := by
  induction k with
  | zero => intro i; simp [retryTraceFrom]
  | succ k ih =>
    intro i
    rw [retryTraceFrom, ih (i + 1), List.range_succ_eq_map]
    simp [List.flatMap_map, Function.comp_def]
    congr 1
    funext j
    have : i + 1 + (j : Int) + 1 = i + ((j : Int) + 1) + 1 := by ring
    rw [this]

theorem retryTraceFrom_zero (c : NetCall) (M d : Int) (k : Nat) :
    retryTraceFrom c M d 0 k = retryTrace c M d k := by
  rw [retryTraceFrom_zero_eq, retryTrace]
  simp

/-- The loop of `retry` on an operation that fails `k` times from `s` and then
either succeeds or has reached its last attempt. -/
theorem retryLoop_trace {σ α : Type} (c : NetCall) (f : σ → Except JsError (Option α) × σ)
    (M d : Int) : ∀ (k n : Nat) (i : Int) (s : σ), k < n → i + k < M →
      (∀ j, j < k → ∃ e, (f (netAfter f s j)).1 = .error e) →
      ((∃ v, (f (netAfter f s k)).1 = .ok v) ∨ i + k = M - 1) →
      retryLoop (invoke c f) M d n i s =
        ⟨(f (netAfter f s k)).1, netAfter f s (k + 1), retryTraceFrom c M d i k⟩ := by
  intro k
  induction k with
  | zero =>
    intro n i s hn hi _ hlast
    obtain ⟨n, rfl⟩ : ∃ m, n = m + 1 := ⟨n - 1, by omega⟩
    simp only [Nat.cast_zero, add_zero] at hi hlast
    rw [netAfter_zero, netAfter_succ, netAfter_zero]
    cases hr : (f s).1 with
    | ok v => exact retryLoop_ok (invoke c f) M d n i s v hi hr
    | error e =>
      rcases hlast with ⟨v, hv⟩ | hl
      · rw [netAfter_zero, hr] at hv; cases hv
      · exact retryLoop_last (invoke c f) M d n i s e hl hr
  | succ k ih =>
    intro n i s hn hi hfail hlast
    obtain ⟨n, rfl⟩ : ∃ m, n = m + 1 := ⟨n - 1, by omega⟩
    obtain ⟨e, he⟩ := hfail 0 (Nat.succ_pos k)
    rw [netAfter_zero] at he
    have hi1 : i < M := by push_cast at hi; omega
    have hi2 : i ≠ M - 1 := by push_cast at hi; omega
    rw [retryLoop_again (invoke c f) M d n i s e hi1 hi2 he]
    have hstep := ih n (i + 1) (f s).2 (by omega) (by push_cast at hi ⊢; omega)
      (fun j hj => by
        have := hfail (j + 1) (by omega)
        rwa [netAfter_succ] at this)
      (by
        rcases hlast with ⟨v, hv⟩ | hl
        · left; exact ⟨v, by rwa [netAfter_succ] at hv⟩
        · right; push_cast at hl; omega)
    show Run.mk _ _ _ = _
    simp only [invoke] at hstep ⊢
    rw [hstep]
    simp [retryTraceFrom, netAfter_succ]

/-- The run of `retry` on an operation that fails `k` times from `s` and then
either succeeds or has used up its attempts. -/
theorem retry_trace {σ α : Type} (c : NetCall) (f : σ → Except JsError (Option α) × σ)
    (M d : Int) (k : Nat) (s : σ) (hk : (k : Int) < M)
    (hfail : ∀ j, j < k → ∃ e, (f (netAfter f s j)).1 = .error e)
    (hlast : (∃ v, (f (netAfter f s k)).1 = .ok v) ∨ (k : Int) = M - 1) :
    retry (invoke c f) M d s =
      ⟨(f (netAfter f s k)).1, netAfter f s (k + 1), retryTrace c M d k⟩ := by
  rw [retry, retryLoop_trace c f M d k M.toNat 0 s (by omega) (by omega) hfail
    (by rcases hlast with h | h; exact Or.inl h; right; omega), retryTraceFrom_zero]

/-- With at least one attempt allowed, `retry` stops at some attempt `k + 1`:
the first one that succeeds, or the last one allowed. -/
theorem retry_cases {σ α : Type} (c : NetCall) (f : σ → Except JsError (Option α) × σ)
    (M d : Int) (s : σ) (hM : 1 ≤ M) :
    ∃ k : Nat, (k : Int) < M ∧
      retry (invoke c f) M d s =
        ⟨(f (netAfter f s k)).1, netAfter f s (k + 1), retryTrace c M d k⟩ := by
  by_cases h : ∃ j : Nat, (j : Int) < M ∧ ∃ v, (f (netAfter f s j)).1 = .ok v
  · classical
    refine ⟨Nat.find h, (Nat.find_spec h).1, ?_⟩
    apply retry_trace c f M d _ s (Nat.find_spec h).1
    · intro j hj
      have hnot := Nat.find_min h hj
      have hjM : (j : Int) < M := by
        have := (Nat.find_spec h).1
        omega
      cases hr : (f (netAfter f s j)).1 with
      | ok v => exact absurd ⟨hjM, v, hr⟩ hnot
      | error e => exact ⟨e, rfl⟩
    · exact Or.inl (Nat.find_spec h).2
  · refine ⟨M.toNat - 1, by omega, ?_⟩
    apply retry_trace c f M d _ s (by omega)
    · intro j hj
      cases hr : (f (netAfter f s j)).1 with
      | ok v => exact absurd ⟨j, by omega, v, hr⟩ h
      | error e => exact ⟨e, rfl⟩
    · right; omega

/-- Fuel beyond the iterations the loop has left changes nothing: the loop of
`retry` is total, and `retry` gives it exactly the iterations it can use. -/
theorem retryLoop_fuel {σ α : Type} (fn : Op σ α) (M d : Int) :
    ∀ (n : Nat) (i : Int) (s : σ), (M - i).toNat ≤ n →
      retryLoop fn M d n i s = retryLoop fn M d (M - i).toNat i s := by
  intro n
  induction n with
  | zero =>
    intro i s h
    have : (M - i).toNat = 0 := by omega
    rw [this]
  | succ n ih =>
    intro i s h
    by_cases hi : i < M
    · obtain ⟨m, hm⟩ : ∃ m, (M - i).toNat = m + 1 := ⟨(M - i).toNat - 1, by omega⟩
      have hm1 : (M - (i + 1)).toNat = m := by omega
      rw [hm]
      cases hr : (fn s).result with
      | ok v => rw [retryLoop_ok fn M d n i s v hi hr, retryLoop_ok fn M d m i s v hi hr]
      | error e =>
        by_cases hl : i = M - 1
        · rw [retryLoop_last fn M d n i s e hl hr, retryLoop_last fn M d m i s e hl hr]
        · rw [retryLoop_again fn M d n i s e hi hl hr, retryLoop_again fn M d m i s e hi hl hr,
            ih (i + 1) (fn s).net (by omega), hm1]
    · rw [retryLoop_exit fn M d _ i s hi, retryLoop_exit fn M d _ i s hi]

theorem countP_isCall_retryTraceFrom (c : NetCall) (M d : Int) (k : Nat) :
    ∀ i : Int, (retryTraceFrom c M d i k).countP Event.isCall = k + 1 := by
  induction k with
  | zero => intro i; simp [retryTraceFrom, Event.isCall]
  | succ k ih => intro i; simp [retryTraceFrom, Event.isCall, ih (i + 1)]

theorem countP_isWarning_retryTraceFrom (c : NetCall) (M d : Int) (k : Nat) :
    ∀ i : Int, (retryTraceFrom c M d i k).countP Event.isWarning = k := by
  induction k with
  | zero => intro i; simp [retryTraceFrom, Event.isWarning]
  | succ k ih => intro i; simp [retryTraceFrom, Event.isWarning, ih (i + 1)]

theorem countP_isSleep_retryTraceFrom (c : NetCall) (M d : Int) (k : Nat) :
    ∀ i : Int, (retryTraceFrom c M d i k).countP Event.isSleep = k := by
  induction k with
  | zero => intro i; simp [retryTraceFrom, Event.isSleep]
  | succ k ih => intro i; simp [retryTraceFrom, Event.isSleep, ih (i + 1)]

theorem count_sleep_retryTraceFrom (c : NetCall) (M d : Int) (k : Nat) :
    ∀ i : Int, (retryTraceFrom c M d i k).count (Event.sleep d) = k := by
  induction k with
  | zero => intro i; simp [retryTraceFrom]
  | succ k ih => intro i; simp [retryTraceFrom, ih (i + 1)]

theorem getLast_retryTraceFrom (c : NetCall) (M d : Int) (k : Nat) :
    ∀ i : Int, (retryTraceFrom c M d i k).getLast? = some (Event.call c) := by
  induction k with
  | zero => intro i; simp [retryTraceFrom]
  | succ k ih =>
    intro i
    rw [retryTraceFrom, List.getLast?_append, ih (i + 1)]
    simp

theorem head_retryTraceFrom (c : NetCall) (M d : Int) (k : Nat) (i : Int) :
    (retryTraceFrom c M d i k).head? = some (Event.call c) := by
  cases k <;> simp [retryTraceFrom]

/-- C1: for every `maxRetries` and `k < maxRetries` (so `maxRetries >= 1`) and
every operation that fails on its first `k` invocations and succeeds with `v`
on invocation `k + 1`, `retry` returns `v`, leaves the network as `k + 1`
invocations leave it, and its events are `k` rounds of invocation, warning and
`sleep(delay)` followed by the successful invocation: `k + 1` invocations, `k`
warnings, `k` sleeps of `delay`, nothing after the success. -/
theorem retry_succeeds_after_failures {σ α : Type} (c : NetCall)
    (f : σ → Except JsError (Option α) × σ) (maxRetries delay : Int) (k : Nat) (s : σ)
    (v : Option α) (hk : (k : Int) < maxRetries)
    (hfail : ∀ j, j < k → ∃ e, (f (netAfter f s j)).1 = .error e)
    (hok : (f (netAfter f s k)).1 = .ok v) :
    retry (invoke c f) maxRetries delay s =
        ⟨.ok v, netAfter f s (k + 1), retryTrace c maxRetries delay k⟩
      ∧ (retryTrace c maxRetries delay k).countP Event.isCall = k + 1
      ∧ (retryTrace c maxRetries delay k).countP Event.isWarning = k
      ∧ (retryTrace c maxRetries delay k).countP Event.isSleep = k
      ∧ (retryTrace c maxRetries delay k).count (Event.sleep delay) = k
      ∧ (retryTrace c maxRetries delay k).getLast? = some (Event.call c) := by
  refine ⟨?_, ?_, ?_, ?_, ?_, ?_⟩
  · rw [retry_trace c f maxRetries delay k s hk hfail (Or.inl ⟨v, hok⟩), hok]
  · rw [← retryTraceFrom_zero]; exact countP_isCall_retryTraceFrom c _ _ k 0
  · rw [← retryTraceFrom_zero]; exact countP_isWarning_retryTraceFrom c _ _ k 0
  · rw [← retryTraceFrom_zero]; exact countP_isSleep_retryTraceFrom c _ _ k 0
  · rw [← retryTraceFrom_zero]; exact count_sleep_retryTraceFrom c _ _ k 0
  · rw [← retryTraceFrom_zero]; exact getLast_retryTraceFrom c _ _ k 0

theorem retry_succeeds_after_failures_witness :
    retry (invoke (NetCall.balanceOf 1) flakyOp) 5 1000 0 =
        ⟨.ok (some 7), netAfter flakyOp 0 3, retryTrace (NetCall.balanceOf 1) 5 1000 2⟩
      ∧ (retryTrace (NetCall.balanceOf 1) 5 1000 2).countP Event.isCall = 3 :=
  have h := retry_succeeds_after_failures (NetCall.balanceOf 1) flakyOp 5 1000 2 0 (some 7)
    (by decide) (by intro j hj; interval_cases j <;> exact ⟨_, rfl⟩) rfl
  ⟨h.1, h.2.1⟩

/-- C2: for every `maxRetries >= 1` and every operation that fails on every
invocation, `retry` invokes it exactly `maxRetries` times, warns and sleeps
after each failure but the last (`maxRetries - 1` warnings, the first event
and the last event being invocations), and fails with the very error of the
last invocation. -/
theorem retry_all_fail {σ α : Type} (c : NetCall) (f : σ → Except JsError (Option α) × σ)
    (maxRetries delay : Int) (s : σ) (hM : 1 ≤ maxRetries)
    (hfail : ∀ j, ∃ e, (f (netAfter f s j)).1 = .error e) :
    (retry (invoke c f) maxRetries delay s).result = (f (netAfter f s (maxRetries.toNat - 1))).1
      ∧ (∃ e, (retry (invoke c f) maxRetries delay s).result = .error e)
      ∧ (retry (invoke c f) maxRetries delay s).net = netAfter f s maxRetries.toNat
      ∧ (retry (invoke c f) maxRetries delay s).log
          = retryTrace c maxRetries delay (maxRetries.toNat - 1)
      ∧ (retry (invoke c f) maxRetries delay s).log.countP Event.isCall = maxRetries.toNat
      ∧ (retry (invoke c f) maxRetries delay s).log.countP Event.isWarning
          = maxRetries.toNat - 1
      ∧ (retry (invoke c f) maxRetries delay s).log.head? = some (Event.call c)
      ∧ (retry (invoke c f) maxRetries delay s).log.getLast? = some (Event.call c) := by
  have hrun := retry_trace c f maxRetries delay (maxRetries.toNat - 1) s (by omega)
    (fun j _ => hfail j) (Or.inr (by omega))
  have hsucc : maxRetries.toNat - 1 + 1 = maxRetries.toNat := by omega
  rw [hrun, hsucc]
  refine ⟨rfl, ?_, rfl, rfl, ?_, ?_, ?_, ?_⟩
  · obtain ⟨e, he⟩ := hfail (maxRetries.toNat - 1)
    exact ⟨e, he⟩
  · show (retryTrace c maxRetries delay (maxRetries.toNat - 1)).countP Event.isCall = _
    rw [← retryTraceFrom_zero, countP_isCall_retryTraceFrom, hsucc]
  · show (retryTrace c maxRetries delay (maxRetries.toNat - 1)).countP Event.isWarning = _
    rw [← retryTraceFrom_zero, countP_isWarning_retryTraceFrom]
  · show (retryTrace c maxRetries delay (maxRetries.toNat - 1)).head? = _
    rw [← retryTraceFrom_zero, head_retryTraceFrom]
  · show (retryTrace c maxRetries delay (maxRetries.toNat - 1)).getLast? = _
    rw [← retryTraceFrom_zero, getLast_retryTraceFrom]

theorem retry_all_fail_witness :
    (retry (invoke (NetCall.balanceOf 1) downOp) 3 1000 0).result = .error ⟨"down at 2"⟩
      ∧ (retry (invoke (NetCall.balanceOf 1) downOp) 3 1000 0).log.countP Event.isCall = 3
      ∧ (retry (invoke (NetCall.balanceOf 1) downOp) 3 1000 0).log.countP Event.isWarning = 2 :=
  have h := retry_all_fail (NetCall.balanceOf 1) downOp 3 1000 0 (by decide)
    (fun _ => ⟨_, rfl⟩)
  ⟨h.1, h.2.2.2.2.1, h.2.2.2.2.2.1⟩

/-- C10: for every `maxRetries <= 0` and every operation, `retry` does not
invoke the operation (the network is untouched and no event happens, so no
warning either) and completes normally with `undefined`: the same result as
a `retry` of an operation that succeeds at once with `undefined`. -/
theorem retry_nonpositive {σ α : Type} (fn : Op σ α) (maxRetries delay : Int) (s : σ)
    (hM : maxRetries ≤ 0) :
    retry fn maxRetries delay s = ⟨.ok none, s, []⟩
      ∧ (retry fn maxRetries delay s).result
          = (retry (fun t => (⟨.ok none, t, []⟩ : Run σ (Except JsError (Option α)))) 1 delay
              s).result := by
  have h : retry fn maxRetries delay s = ⟨.ok none, s, []⟩ :=
    retryLoop_exit fn maxRetries delay _ 0 s (by omega)
  refine ⟨h, ?_⟩
  rw [h]
  rfl

theorem retry_nonpositive_witness :
    retry (invoke (NetCall.balanceOf 1) downOp) 0 1000 0 = ⟨.ok none, 0, []⟩ :=
  (retry_nonpositive (invoke (NetCall.balanceOf 1) downOp) 0 1000 0 (by decide)).1

/-! ## Rounding -/

theorem roundHalfEven_le (q : ℚ) (k : ℤ) (h : q ≤ k) : roundHalfEven q ≤ k := by
  have hfl : ⌊q⌋ ≤ k := by
    have : ((⌊q⌋ : ℤ) : ℚ) ≤ k := le_trans (Int.floor_le q) h
    exact_mod_cast this
  have hup : 0 < q - ⌊q⌋ → ⌊q⌋ + 1 ≤ k := by
    intro hpos
    have : ((⌊q⌋ : ℤ) : ℚ) < k := by linarith
    have : ⌊q⌋ < k := by exact_mod_cast this
    omega
  unfold roundHalfEven
  split_ifs with h1 h2 h3
  · exact hfl
  · exact hup (by linarith)
  · exact hfl
  · exact hup (by linarith)

theorem le_roundHalfEven (q : ℚ) (k : ℤ) (h : (k : ℚ) ≤ q) : k ≤ roundHalfEven q := by
  have hfl : k ≤ ⌊q⌋ := Int.le_floor.mpr h
  unfold roundHalfEven
  split_ifs <;> omega

theorem roundHalfEven_of_lt_half (q : ℚ) (k : ℤ) (h1 : (k : ℚ) ≤ q) (h2 : q < k + 1 / 2) :
    roundHalfEven q = k := by
  have hfl : ⌊q⌋ = k := Int.floor_eq_iff.mpr ⟨h1, by linarith⟩
  unfold roundHalfEven
  rw [hfl, if_pos (by linarith)]

theorem roundHalfEven_of_tie_even (q : ℚ) (k : ℤ) (h1 : q = k + 1 / 2) (h2 : k % 2 = 0) :
    roundHalfEven q = k := by
  have hfl : ⌊q⌋ = k := Int.floor_eq_iff.mpr ⟨by linarith, by linarith⟩
  unfold roundHalfEven
  rw [hfl, if_neg (by linarith), if_neg (by linarith), if_pos h2]

theorem ulpExp_of_binade (x : ℚ) (e : ℤ) (he : -1022 ≤ e) (h1 : (2 : ℚ) ^ e ≤ |x|)
    (h2 : |x| < (2 : ℚ) ^ (e + 1)) : ulpExp x = e - 52 := by
  have hpos : 0 < |x| := lt_of_lt_of_le (zpow_pos (by norm_num) e) h1
  have hle : e ≤ Int.log 2 |x| := (Int.zpow_le_iff_le_log (by norm_num) hpos).mp (by exact_mod_cast h1)
  have hlt : Int.log 2 |x| < e + 1 :=
    (Int.lt_zpow_iff_log_lt (by norm_num) hpos).mp (by exact_mod_cast h2)
  unfold ulpExp
  omega

theorem ulpExp_nonpos (x : ℚ) (h : |x| < 2 ^ 53) : ulpExp x ≤ 0 := by
  have hlog : Int.log 2 |x| < 53 := by
    rcases eq_or_lt_of_le (abs_nonneg x) with h0 | hpos
    · rw [← h0, Int.log_zero_right]; norm_num
    · exact (Int.lt_zpow_iff_log_lt (by norm_num) hpos).mp (by exact_mod_cast h)
  unfold ulpExp
  omega

/-- An integer is a multiple of every unit in the last place below one. -/
theorem int_eq_mul_ulp (a u : ℤ) (hu : u ≤ 0) :
    (a : ℚ) = ((a * 2 ^ (-u).toNat : ℤ) : ℚ) * (2 : ℚ) ^ u := by
  obtain ⟨n, rfl⟩ : ∃ n : ℕ, u = -(n : ℤ) := ⟨(-u).toNat, by omega⟩
  have hne : ((2 : ℚ) ^ n) ≠ 0 := pow_ne_zero _ (by norm_num)
  rw [neg_neg, Int.toNat_natCast, zpow_neg, zpow_natCast]
  push_cast
  field_simp

theorem roundDouble_le (x : ℚ) (a : ℤ) (hx : |x| < 2 ^ 53) (h : x ≤ a) : roundDouble x ≤ a := by
  have hu := ulpExp_nonpos x hx
  have hpos : (0 : ℚ) < 2 ^ ulpExp x := zpow_pos (by norm_num) _
  have ha := int_eq_mul_ulp a (ulpExp x) hu
  have hq : x / 2 ^ ulpExp x ≤ ((a * 2 ^ (-ulpExp x).toNat : ℤ) : ℚ) := by
    rw [div_le_iff₀ hpos, ← ha]; exact h
  have hr := roundHalfEven_le _ _ hq
  have hr2 : ((roundHalfEven (x / 2 ^ ulpExp x) : ℤ) : ℚ) ≤ ((a * 2 ^ (-ulpExp x).toNat : ℤ) : ℚ) := by
    exact_mod_cast hr
  unfold roundDouble
  rw [ha]
  exact mul_le_mul_of_nonneg_right hr2 hpos.le

theorem le_roundDouble (x : ℚ) (a : ℤ) (hx : |x| < 2 ^ 53) (h : (a : ℚ) ≤ x) :
    (a : ℚ) ≤ roundDouble x := by
  have hu := ulpExp_nonpos x hx
  have hpos : (0 : ℚ) < 2 ^ ulpExp x := zpow_pos (by norm_num) _
  have ha := int_eq_mul_ulp a (ulpExp x) hu
  have hq : ((a * 2 ^ (-ulpExp x).toNat : ℤ) : ℚ) ≤ x / 2 ^ ulpExp x := by
    rw [le_div_iff₀ hpos, ← ha]; exact h
  have hr := le_roundHalfEven _ _ hq
  have hr2 : ((a * 2 ^ (-ulpExp x).toNat : ℤ) : ℚ) ≤ ((roundHalfEven (x / 2 ^ ulpExp x) : ℤ) : ℚ) := by
    exact_mod_cast hr
  unfold roundDouble
  rw [ha]
  exact mul_le_mul_of_nonneg_right hr2 hpos.le

/-- Integers below `2^53` in magnitude are binary64 numbers. -/
theorem roundDouble_int (a : ℤ) (h : |(a : ℚ)| < 2 ^ 53) : roundDouble a = a :=
  le_antisymm (roundDouble_le _ a h le_rfl) (le_roundDouble _ a h le_rfl)

theorem jsSub_five_ten : jsSub 5 10 = -5 := by
  have h := roundDouble_int (-5) (by norm_num [abs_of_neg])
  unfold jsSub
  norm_num at h ⊢
  exact h

theorem amountNumber_bounds (r : ℚ) (h0 : 0 ≤ r) (h1 : r < 1) :
    10 ≤ amountNumber r ∧ amountNumber r ≤ 15 := by
  unfold amountNumber
  rw [jsSub_five_ten]
  have hx : |r * -5| < 2 ^ 53 := by
    rw [abs_lt]; constructor <;> norm_num <;> linarith
  have hp1 : ((-5 : ℤ) : ℚ) ≤ jsMul r (-5) := le_roundDouble _ _ hx (by push_cast; linarith)
  have hp2 : jsMul r (-5) ≤ ((0 : ℤ) : ℚ) := roundDouble_le _ _ hx (by push_cast; linarith)
  push_cast at hp1 hp2
  have hy : |jsMul r (-5) + 15| < 2 ^ 53 := by
    rw [abs_lt]; constructor <;> norm_num <;> linarith
  have hs1 : ((10 : ℤ) : ℚ) ≤ jsAdd (jsMul r (-5)) 15 := le_roundDouble _ _ hy (by push_cast; linarith)
  have hs2 : jsAdd (jsMul r (-5)) 15 ≤ ((15 : ℤ) : ℚ) := roundDouble_le _ _ hy (by push_cast; linarith)
  push_cast at hs1 hs2
  exact ⟨hs1, hs2⟩

theorem roundDouble_of_binade (x : ℚ) (e : ℤ) (he : -1022 ≤ e) (h1 : (2 : ℚ) ^ e ≤ |x|)
    (h2 : |x| < (2 : ℚ) ^ (e + 1)) :
    roundDouble x = roundHalfEven (x / 2 ^ (e - 52)) * 2 ^ (e - 52) := by
  unfold roundDouble
  rw [ulpExp_of_binade x e he h1 h2]

theorem jsMul_near_one : jsMul (1 - 1 / 2 ^ 52) (-5) = -5 + 1 / 2 ^ 50 := by
  unfold jsMul
  have habs : |(1 - 1 / 2 ^ 52 : ℚ) * -5| = 5 - 5 / 2 ^ 52 := by
    rw [abs_of_neg (by norm_num)]; norm_num
  rw [roundDouble_of_binade _ 2 (by norm_num) (by rw [habs]; norm_num) (by rw [habs]; norm_num)]
  rw [roundHalfEven_of_lt_half _ (-5 * 2 ^ 50 + 1) (by norm_num) (by norm_num)]
  norm_num

theorem jsAdd_near_ten : jsAdd (-5 + 1 / 2 ^ 50) 15 = 10 := by
  unfold jsAdd
  have habs : |(-5 + 1 / 2 ^ 50 : ℚ) + 15| = 10 + 1 / 2 ^ 50 := by
    rw [abs_of_pos (by norm_num)]; norm_num
  rw [roundDouble_of_binade _ 3 (by norm_num) (by rw [habs]; norm_num) (by rw [habs]; norm_num)]
  rw [roundHalfEven_of_tie_even _ (10 * 2 ^ 49) (by norm_num) (by norm_num)]
  norm_num

theorem roundDouble_near_one : roundDouble (1 - 1 / 2 ^ 52) = 1 - 1 / 2 ^ 52 := by
  have habs : |(1 - 1 / 2 ^ 52 : ℚ)| = 1 - 1 / 2 ^ 52 := abs_of_pos (by norm_num)
  rw [roundDouble_of_binade _ (-1) (by norm_num) (by rw [habs]; norm_num) (by rw [habs]; norm_num)]
  rw [roundHalfEven_of_lt_half _ (2 ^ 53 - 2) (by norm_num) (by norm_num)]
  norm_num

/-- The exact value of `r * (5 - 10) + 15`, before any rounding, lies in
`(10, 15]`; the binary64 result `amountNumber r` can differ from it. -/
theorem exact_value_range (r : ℚ) (h0 : 0 ≤ r) (h1 : r < 1) :
    10 < r * (5 - 10) + 15 ∧ r * (5 - 10) + 15 ≤ 15 := by
  constructor <;> linarith

/-- C8, against the claim: the draw `r = 1 - 2^-52` is a binary64 number in
`[0, 1)`, and for it `r * (5 - 10) + 15` evaluates to exactly `10`, which is
not in `(10, 15]`. -/
theorem amountNumber_reaches_ten :
    (0 : ℚ) ≤ 1 - 1 / 2 ^ 52 ∧ (1 - 1 / 2 ^ 52 : ℚ) < 1
      ∧ roundDouble (1 - 1 / 2 ^ 52) = 1 - 1 / 2 ^ 52
      ∧ amountNumber (1 - 1 / 2 ^ 52) = 10
      ∧ ¬ (10 < amountNumber (1 - 1 / 2 ^ 52) ∧ amountNumber (1 - 1 / 2 ^ 52) ≤ 15) := by
  have h : amountNumber (1 - 1 / 2 ^ 52) = 10 := by
    unfold amountNumber
    rw [jsSub_five_ten, jsMul_near_one, jsAdd_near_ten]
  refine ⟨by norm_num, by norm_num, roundDouble_near_one, h, ?_⟩
  rw [h]
  norm_num

theorem toFixed_six_bounds (x : ℚ) (h1 : 10 ≤ x) (h2 : x ≤ 15) :
    (toFixed x 6).scale = 6 ∧ 10 * 10 ^ 6 ≤ (toFixed x 6).mantissa
      ∧ (toFixed x 6).mantissa ≤ 15 * 10 ^ 6 := by
  unfold toFixed
  rw [if_neg (by linarith)]
  refine ⟨rfl, ?_, ?_⟩
  · apply Int.le_floor.mpr
    push_cast
    linarith
  · have : ⌊x * 10 ^ 6 + 1 / 2⌋ < 15 * 10 ^ 6 + 1 := by
      apply Int.floor_lt.mpr
      push_cast
      linarith
    show ⌊x * 10 ^ 6 + 1 / 2⌋ ≤ 15 * 10 ^ 6
    omega

theorem amountToSend_eq (r : ℚ) :
    amountToSend r = .ok ((toFixed (amountNumber r) 6).mantissa * 10 ^ 12) := by
  unfold amountToSend parseUnits
  have hs : (toFixed (amountNumber r) 6).scale = 6 := by
    unfold toFixed; split_ifs <;> rfl
  rw [hs]
  simp

/-- C8, amended: for every draw `r` with `0 <= r < 1` the binary64 value of
`r * (5 - 10) + 15` lies in `[10, 15]` (hence never in `(15, 20)`), and the
dispatched amount, after `toFixed(6)` and `parseUnits(_, 18)`, is a multiple of
`10^12` between `10 * 10^18` and `15 * 10^18` inclusive. -/
theorem amount_range (r : ℚ) (h0 : 0 ≤ r) (h1 : r < 1) :
    10 ≤ amountNumber r ∧ amountNumber r ≤ 15
      ∧ ¬ (15 < amountNumber r ∧ amountNumber r < 20)
      ∧ ∃ n : ℤ, amountToSend r = .ok (n * 10 ^ 12)
          ∧ 10 * 10 ^ 18 ≤ n * 10 ^ 12 ∧ n * 10 ^ 12 ≤ 15 * 10 ^ 18 := by
  obtain ⟨hlo, hhi⟩ := amountNumber_bounds r h0 h1
  obtain ⟨_, hm1, hm2⟩ := toFixed_six_bounds (amountNumber r) hlo hhi
  refine ⟨hlo, hhi, fun h => absurd h.1 (not_lt.mpr hhi), _, amountToSend_eq r, ?_, ?_⟩
  · omega
  · omega

theorem amount_range_witness :
    10 ≤ amountNumber (1 / 2) ∧ amountNumber (1 / 2) ≤ 15
      ∧ ¬ (15 < amountNumber (1 / 2) ∧ amountNumber (1 / 2) < 20)
      ∧ ∃ n : ℤ, amountToSend (1 / 2) = .ok (n * 10 ^ 12)
          ∧ 10 * 10 ^ 18 ≤ n * 10 ^ 12 ∧ n * 10 ^ 12 ≤ 15 * 10 ^ 18 :=
  amount_range (1 / 2) (by norm_num) (by norm_num)

/-! ## The receipt poll -/

theorem pollReceipt_of_ok {σ : Type} (env : Env σ) (hash : TxHash) (s : σ)
    (receipt : Option Receipt)
    (h : (retry (receiptOp env hash) MAX_RETRIES RETRY_DELAY s).result = .ok receipt) :
    pollReceipt env hash s =
      ⟨(), (retry (receiptOp env hash) MAX_RETRIES RETRY_DELAY s).net,
        (retry (receiptOp env hash) MAX_RETRIES RETRY_DELAY s).log ++ [classify receipt]⟩ := by
  simp [pollReceipt, h]

theorem pollReceipt_of_error {σ : Type} (env : Env σ) (hash : TxHash) (s : σ) (e : JsError)
    (h : (retry (receiptOp env hash) MAX_RETRIES RETRY_DELAY s).result = .error e) :
    pollReceipt env hash s =
      ⟨(), (retry (receiptOp env hash) MAX_RETRIES RETRY_DELAY s).net,
        (retry (receiptOp env hash) MAX_RETRIES RETRY_DELAY s).log
          ++ [Event.statusError e.message]⟩ := by
  simp [pollReceipt, h]

/-- C5: when the receipt lookup of a submitted transaction returns a receipt
`r` (on attempt `k + 1 <= 5`, the earlier attempts having failed), the poll
reports exactly one outcome after its lookups: Confirmed with `r.blockNumber`
if `r.status` is 1, Reverted for every other status. -/
theorem poll_receipt_outcome {σ : Type} (env : Env σ) (hash : TxHash) (s : σ) (k : Nat)
    (r : Receipt) (hk : k < 5)
    (hfail : ∀ j, j < k →
      ∃ e, (env.getTransactionReceipt hash (netAfter (env.getTransactionReceipt hash) s j)).1
        = .error e)
    (hok : (env.getTransactionReceipt hash (netAfter (env.getTransactionReceipt hash) s k)).1
      = .ok (some r)) :
    pollReceipt env hash s =
      ⟨(), netAfter (env.getTransactionReceipt hash) s (k + 1),
        retryTrace (NetCall.getTransactionReceipt hash) MAX_RETRIES RETRY_DELAY k
          ++ [if r.status = some 1 then Event.confirmed r.blockNumber else Event.reverted]⟩ := by
  have hrun := retry_trace (NetCall.getTransactionReceipt hash) (env.getTransactionReceipt hash)
    MAX_RETRIES RETRY_DELAY k s (by show (k : Int) < 5; omega) hfail (Or.inl ⟨_, hok⟩)
  rw [hok] at hrun
  rw [pollReceipt_of_ok env hash s (some r) (by rw [receiptOp, hrun]), receiptOp, hrun]
  rfl

theorem poll_receipt_outcome_witness :
    pollReceipt (counterEnv flakyReceipt) 7 0 =
        ⟨(), 2, [Event.call (NetCall.getTransactionReceipt 7), Event.retrying 1 5,
          Event.sleep 1000, Event.call (NetCall.getTransactionReceipt 7), Event.confirmed 42]⟩
      ∧ pollReceipt (counterEnv revertedReceipt) 7 0 =
        ⟨(), 1, [Event.call (NetCall.getTransactionReceipt 7), Event.reverted]⟩ :=
  ⟨poll_receipt_outcome (counterEnv flakyReceipt) 7 0 1 ⟨some 1, 42⟩ (by decide)
      (by intro j hj; interval_cases j; exact ⟨_, rfl⟩) rfl,
    poll_receipt_outcome (counterEnv revertedReceipt) 7 0 0 ⟨some 0, 43⟩ (by decide)
      (by intro j hj; exact absurd hj (Nat.not_lt_zero j)) rfl⟩

/-- C6, what the code does: when the first receipt lookup answers "no receipt
yet", the poll makes that one lookup, makes no further one, and reports
Pending. -/
theorem poll_no_receipt_single_lookup {σ : Type} (env : Env σ) (hash : TxHash) (s : σ)
    (h : (env.getTransactionReceipt hash s).1 = .ok none) :
    pollReceipt env hash s =
        ⟨(), (env.getTransactionReceipt hash s).2,
          [Event.call (NetCall.getTransactionReceipt hash), Event.pending]⟩
      ∧ (pollReceipt env hash s).log.countP Event.isReceiptCall = 1 := by
  have hrun := retry_trace (NetCall.getTransactionReceipt hash) (env.getTransactionReceipt hash)
    MAX_RETRIES RETRY_DELAY 0 s (by decide) (fun j hj => absurd hj (Nat.not_lt_zero j))
    (Or.inl ⟨_, h⟩)
  rw [netAfter_zero, h] at hrun
  have hp : pollReceipt env hash s =
      ⟨(), (env.getTransactionReceipt hash s).2,
        [Event.call (NetCall.getTransactionReceipt hash), Event.pending]⟩ := by
    rw [pollReceipt_of_ok env hash s none (by rw [receiptOp, hrun]), receiptOp, hrun]
    rfl
  refine ⟨hp, ?_⟩
  rw [hp]
  rfl

theorem poll_no_receipt_single_lookup_witness :
    pollReceipt (counterEnv lateReceipt) 7 0 =
        ⟨(), 1, [Event.call (NetCall.getTransactionReceipt 7), Event.pending]⟩
      ∧ (pollReceipt (counterEnv lateReceipt) 7 0).log.countP Event.isReceiptCall = 1
      ∧ (lateReceipt 7 1).1 = .ok (some ⟨some 1, 42⟩) :=
  have h := poll_no_receipt_single_lookup (counterEnv lateReceipt) 7 0 rfl
  ⟨h.1, h.2, rfl⟩

/-- C9, against the claim: a receipt lookup that raises an exception on its
first invocation is invoked again, and when the second invocation returns a
receipt the poll reports Confirmed and no error. -/
theorem poll_exception_is_retried :
    (flakyReceipt 7 0).1 = .error ⟨"rpc timeout"⟩
      ∧ pollReceipt (counterEnv flakyReceipt) 7 0 =
        ⟨(), 2, [Event.call (NetCall.getTransactionReceipt 7), Event.retrying 1 5,
          Event.sleep 1000, Event.call (NetCall.getTransactionReceipt 7), Event.confirmed 42]⟩
      ∧ (pollReceipt (counterEnv flakyReceipt) 7 0).log.countP Event.isReceiptCall = 2 := by
  refine ⟨rfl, ?_, ?_⟩
  · rfl
  · rfl

/-! ## What a `retry` trace contains -/

theorem filterMap_retryTraceFrom {β : Type} (g : Event → Option β) (c : NetCall) (M d : Int)
    (hc : g (Event.call c) = none) (hw : ∀ a m, g (Event.retrying a m) = none)
    (hs : ∀ ms, g (Event.sleep ms) = none) (k : Nat) :
    ∀ i : Int, (retryTraceFrom c M d i k).filterMap g = [] := by
  induction k with
  | zero => intro i; simp [retryTraceFrom, hc]
  | succ k ih => intro i; simp [retryTraceFrom, hc, hw, hs, ih (i + 1)]

theorem countP_retryTraceFrom_zero (p : Event → Bool) (c : NetCall) (M d : Int)
    (hc : p (Event.call c) = false) (hw : ∀ a m, p (Event.retrying a m) = false)
    (hs : ∀ ms, p (Event.sleep ms) = false) (k : Nat) :
    ∀ i : Int, (retryTraceFrom c M d i k).countP p = 0 := by
  induction k with
  | zero => intro i; simp [retryTraceFrom, hc]
  | succ k ih => intro i; simp [retryTraceFrom, hc, hw, hs, ih (i + 1)]

theorem countP_retryTraceFrom_call (p : Event → Bool) (c : NetCall) (M d : Int)
    (hc : p (Event.call c) = true) (hw : ∀ a m, p (Event.retrying a m) = false)
    (hs : ∀ ms, p (Event.sleep ms) = false) (k : Nat) :
    ∀ i : Int, (retryTraceFrom c M d i k).countP p = k + 1 := by
  induction k with
  | zero => intro i; simp [retryTraceFrom, hc]
  | succ k ih => intro i; simp [retryTraceFrom, hc, hw, hs, ih (i + 1)]

theorem generatedIndex_retryTrace (c : NetCall) (M d : Int) (k : Nat) :
    (retryTrace c M d k).filterMap Event.generatedIndex = [] := by
  rw [← retryTraceFrom_zero]
  exact filterMap_retryTraceFrom _ c M d rfl (fun _ _ => rfl) (fun _ => rfl) k 0

theorem processedSender_retryTrace (c : NetCall) (M d : Int) (k : Nat) :
    (retryTrace c M d k).filterMap Event.processedSender = [] := by
  rw [← retryTraceFrom_zero]
  exact filterMap_retryTraceFrom _ c M d rfl (fun _ _ => rfl) (fun _ => rfl) k 0

theorem isGenerated_retryTrace (c : NetCall) (M d : Int) (k : Nat) :
    (retryTrace c M d k).countP Event.isGenerated = 0 := by
  rw [← retryTraceFrom_zero]
  exact countP_retryTraceFrom_zero _ c M d rfl (fun _ _ => rfl) (fun _ => rfl) k 0

theorem isDispatchEnd_retryTrace (c : NetCall) (M d : Int) (k : Nat) :
    (retryTrace c M d k).countP Event.isDispatchEnd = 0 := by
  rw [← retryTraceFrom_zero]
  exact countP_retryTraceFrom_zero _ c M d rfl (fun _ _ => rfl) (fun _ => rfl) k 0

theorem isTransferCall_retryTrace_transfer (a b : Address) (m : Int) (M d : Int) (k : Nat) :
    (retryTrace (NetCall.transfer a b m) M d k).countP Event.isTransferCall = k + 1 := by
  rw [← retryTraceFrom_zero]
  exact countP_retryTraceFrom_call _ _ M d rfl (fun _ _ => rfl) (fun _ => rfl) k 0

theorem isTransferCall_retryTrace_receipt (h : TxHash) (M d : Int) (k : Nat) :
    (retryTrace (NetCall.getTransactionReceipt h) M d k).countP Event.isTransferCall = 0 := by
  rw [← retryTraceFrom_zero]
  exact countP_retryTraceFrom_zero _ _ M d rfl (fun _ _ => rfl) (fun _ => rfl) k 0

theorem isTransferCall_retryTrace_balanceOf (a : Address) (M d : Int) (k : Nat) :
    (retryTrace (NetCall.balanceOf a) M d k).countP Event.isTransferCall = 0 := by
  rw [← retryTraceFrom_zero]
  exact countP_retryTraceFrom_zero _ _ M d rfl (fun _ _ => rfl) (fun _ => rfl) k 0

/-! ## The retries of `main` -/

/-- A `retry` with the default five attempts of an operation that resolves
with a value: it makes between one and five attempts and never returns
`undefined`. -/
theorem retry_value {σ β : Type} (c : NetCall) (g : σ → Except JsError β × σ) (s : σ) :
    ∃ k : Nat, k < 5 ∧
      (retry (invoke c (fun t => ((g t).1.map some, (g t).2))) MAX_RETRIES RETRY_DELAY s).log
        = retryTrace c MAX_RETRIES RETRY_DELAY k ∧
      (retry (invoke c (fun t => ((g t).1.map some, (g t).2))) MAX_RETRIES RETRY_DELAY s).result
        ≠ .ok none := by
  obtain ⟨k, hk, hrun⟩ := retry_cases c (fun t => ((g t).1.map some, (g t).2))
    MAX_RETRIES RETRY_DELAY s (by decide)
  refine ⟨k, by change (k : Int) < 5 at hk; omega, by rw [hrun], ?_⟩
  rw [hrun]
  simp only
  cases (g (netAfter (fun t => ((g t).1.map some, (g t).2)) s k)).1 <;> simp [Except.map]

/-- The receipt lookup behind `retry` makes between one and five attempts. -/
theorem retry_receipt {σ : Type} (env : Env σ) (hash : TxHash) (s : σ) :
    ∃ k : Nat, k < 5 ∧
      (retry (receiptOp env hash) MAX_RETRIES RETRY_DELAY s).log
        = retryTrace (NetCall.getTransactionReceipt hash) MAX_RETRIES RETRY_DELAY k := by
  obtain ⟨k, hk, hrun⟩ := retry_cases (NetCall.getTransactionReceipt hash)
    (env.getTransactionReceipt hash) MAX_RETRIES RETRY_DELAY s (by decide)
  exact ⟨k, by change (k : Int) < 5 at hk; omega, by rw [receiptOp, hrun]⟩

/-- The poll always completes: some lookups, at most five, then one report. -/
theorem pollReceipt_shape {σ : Type} (env : Env σ) (hash : TxHash) (s : σ) :
    ∃ (k : Nat) (report : Event), k < 5 ∧ report.isPollReport = true ∧
      (pollReceipt env hash s).log =
        retryTrace (NetCall.getTransactionReceipt hash) MAX_RETRIES RETRY_DELAY k ++ [report] := by
  obtain ⟨k, hk, hlog⟩ := retry_receipt env hash s
  cases hres : (retry (receiptOp env hash) MAX_RETRIES RETRY_DELAY s).result with
  | error e =>
    refine ⟨k, Event.statusError e.message, hk, rfl, ?_⟩
    rw [pollReceipt_of_error env hash s e hres, hlog]
  | ok receipt =>
    refine ⟨k, classify receipt, hk, ?_, ?_⟩
    · cases receipt with
      | none => rfl
      | some r => unfold classify; simp only; split_ifs <;> rfl
    · rw [pollReceipt_of_ok env hash s receipt hres, hlog]

/-- A dispatch always completes normally: one to five `transfer` attempts, and
then either the failure report or the summary, the pause and the poll. -/
theorem dispatch_shape {σ : Type} (env : Env σ) (sender : Address) (i : Int)
    (receiver : Address) (amount : Int) (s : σ) :
    ∃ (k : Nat) (rest : List Event), k < 5 ∧
      (dispatch env sender i receiver amount s).result = .ok () ∧
      (dispatch env sender i receiver amount s).log =
        retryTrace (NetCall.transfer sender receiver amount) MAX_RETRIES RETRY_DELAY k ++ rest ∧
      ((∃ m, rest = [Event.sendFailed m]) ∨
        ∃ (h : TxHash) (k2 : Nat) (report : Event), report.isPollReport = true ∧
          rest = [Event.submitted i h sender receiver amount, Event.sleep 10]
            ++ retryTrace (NetCall.getTransactionReceipt h) MAX_RETRIES RETRY_DELAY k2
            ++ [report]) := by
  obtain ⟨k, hk, hlog, hne⟩ := retry_value (NetCall.transfer sender receiver amount)
    (env.transfer sender receiver amount) s
  refine ⟨k, ?_⟩
  cases hres : (retry (transferOp env sender receiver amount) MAX_RETRIES RETRY_DELAY s).result with
  | error e =>
    refine ⟨[Event.sendFailed e.message], hk, ?_, ?_, Or.inl ⟨_, rfl⟩⟩
    · simp only [dispatch, hres]
    · simp only [dispatch, hres]
      rw [transferOp, hlog]
  | ok v =>
    cases v with
    | none => exact absurd hres hne
    | some tx =>
      obtain ⟨k2, report, _, hrep, hplog⟩ := pollReceipt_shape env tx.hash
        (retry (transferOp env sender receiver amount) MAX_RETRIES RETRY_DELAY s).net
      refine ⟨_, hk, ?_, ?_, Or.inr ⟨tx.hash, k2, report, hrep, rfl⟩⟩
      · simp only [dispatch, hres]
      · simp only [dispatch, hres]
        rw [hplog, transferOp, hlog]
        simp

theorem amountToSend_ok (r : ℚ) : ∃ a, amountToSend r = .ok a := ⟨_, amountToSend_eq r⟩

/-- One iteration of the transfer loop is one recipient generation followed by
one dispatch. -/
theorem transferIteration_eq {σ : Type} (env : Env σ) (sender : Address) (i : Int) (s : σ) :
    ∃ (receiver : Address) (amount : Int) (s2 : σ),
      transferIteration env sender i s =
        ⟨(dispatch env sender i receiver amount s2).result,
          (dispatch env sender i receiver amount s2).net,
          Event.generated i receiver :: (dispatch env sender i receiver amount s2).log⟩ := by
  obtain ⟨a, ha⟩ := amountToSend_ok (env.random (env.createRandom s).2).1
  refine ⟨(env.createRandom s).1, a, (env.random (env.createRandom s).2).2, ?_⟩
  unfold transferIteration
  simp only []
  rw [ha]

/-! ## The transfer loop -/

/-- What one iteration of the transfer loop contributes to the log. -/
theorem transferIteration_obs {σ : Type} (env : Env σ) (sender : Address) (i : Int) (s : σ) :
    (transferIteration env sender i s).result = .ok ()
      ∧ (transferIteration env sender i s).log.filterMap Event.generatedIndex = [i]
      ∧ (transferIteration env sender i s).log.filterMap Event.processedSender = []
      ∧ (transferIteration env sender i s).log.countP Event.isGenerated = 1
      ∧ (transferIteration env sender i s).log.countP Event.isDispatchEnd = 1
      ∧ 1 ≤ (transferIteration env sender i s).log.countP Event.isTransferCall
      ∧ (transferIteration env sender i s).log.countP Event.isTransferCall ≤ 5 := by
  obtain ⟨receiver, amount, s2, heq⟩ := transferIteration_eq env sender i s
  obtain ⟨k, rest, hk, hres, hlog, hrest⟩ := dispatch_shape env sender i receiver amount s2
  rw [heq]
  simp only [hres, hlog]
  rcases hrest with ⟨m, rfl⟩ | ⟨h, k2, report, hrep, rfl⟩
  · simp [Event.generatedIndex, Event.processedSender, Event.isGenerated, Event.isDispatchEnd,
      Event.isTransferCall, generatedIndex_retryTrace, processedSender_retryTrace,
      isGenerated_retryTrace, isDispatchEnd_retryTrace, isTransferCall_retryTrace_transfer]
    exact Nat.lt_succ_iff.mp hk
  · cases report <;> simp [Event.isPollReport] at hrep <;>
      (simp [Event.generatedIndex, Event.processedSender, Event.isGenerated,
          Event.isDispatchEnd, Event.isTransferCall, generatedIndex_retryTrace,
          processedSender_retryTrace, isGenerated_retryTrace, isDispatchEnd_retryTrace,
          isTransferCall_retryTrace_transfer, isTransferCall_retryTrace_receipt];
        exact Nat.lt_succ_iff.mp hk)

/-- An iteration whose counter is within the count is always followed by the
rest of the loop, whatever happened in it. -/
theorem transferLoop_succ {σ : Type} (env : Env σ) (sender : Address) (tc : Int) (n : Nat)
    (i : Int) (s : σ) (hi : i ≤ tc) :
    transferLoop env sender tc (n + 1) i s =
      ⟨(transferLoop env sender tc n (i + 1) (transferIteration env sender i s).net).result,
        (transferLoop env sender tc n (i + 1) (transferIteration env sender i s).net).net,
        (transferIteration env sender i s).log
          ++ (transferLoop env sender tc n (i + 1) (transferIteration env sender i s).net).log⟩ := by
  have hok := (transferIteration_obs env sender i s).1
  simp only [transferLoop, hi, if_true, hok]

/-- What the transfer loop contributes to the log, from counter `i` with the
iterations it has left. -/
theorem transferLoop_obs {σ : Type} (env : Env σ) (sender : Address) (tc : Int) :
    ∀ (n : Nat) (i : Int) (s : σ), n = (tc + 1 - i).toNat →
      (transferLoop env sender tc n i s).result = .ok ()
        ∧ (transferLoop env sender tc n i s).log.filterMap Event.generatedIndex
            = (List.range n).map (fun (j : Nat) => i + (j : Int))
        ∧ (transferLoop env sender tc n i s).log.filterMap Event.processedSender = []
        ∧ (transferLoop env sender tc n i s).log.countP Event.isGenerated = n
        ∧ (transferLoop env sender tc n i s).log.countP Event.isDispatchEnd = n
        ∧ n ≤ (transferLoop env sender tc n i s).log.countP Event.isTransferCall
        ∧ (transferLoop env sender tc n i s).log.countP Event.isTransferCall ≤ 5 * n := by
  intro n
  induction n with
  | zero => intro i s _; simp [transferLoop]
  | succ n ih =>
    intro i s hn
    have hi : i ≤ tc := by omega
    obtain ⟨_, a2, a3, a4, a5, a6, a7⟩ := transferIteration_obs env sender i s
    obtain ⟨b1, b2, b3, b4, b5, b6, b7⟩ :=
      ih (i + 1) (transferIteration env sender i s).net (by omega)
    rw [transferLoop_succ env sender tc n i s hi]
    simp only [List.filterMap_append, List.countP_append, a2, a3, a4, a5, b1, b2, b3, b4, b5]
    refine ⟨trivial, ?_, rfl, by omega, by omega, by omega, by omega⟩
    rw [List.range_succ_eq_map]
    simp only [List.map_cons, List.map_map, Nat.cast_zero, add_zero, List.singleton_append]
    congr 1
    apply List.map_congr_left
    intro j _
    simp only [Function.comp_apply, Nat.cast_succ]
    ring

/-! ## The wallet loop -/

theorem minBalance_eq : minBalance = .ok (10 ^ 14) := rfl

theorem processWallet_of_balance_error {σ : Type} (env : Env σ) (tc : Int) (key : PrivateKey)
    (s : σ) (sender : Address) (e : JsError) (hw : env.walletAddress key = .ok sender)
    (hb : (retry (balanceOfOp env sender) MAX_RETRIES RETRY_DELAY s).result = .error e) :
    processWallet env tc key s =
      ⟨.ok (), (retry (balanceOfOp env sender) MAX_RETRIES RETRY_DELAY s).net,
        [Event.processing sender] ++ (retry (balanceOfOp env sender) MAX_RETRIES RETRY_DELAY s).log
          ++ [Event.balanceCheckFailed sender]⟩ := by
  simp only [processWallet, hw, hb]

theorem processWallet_of_low_balance {σ : Type} (env : Env σ) (tc : Int) (key : PrivateKey)
    (s : σ) (sender : Address) (b : Nat) (hw : env.walletAddress key = .ok sender)
    (hb : (retry (balanceOfOp env sender) MAX_RETRIES RETRY_DELAY s).result = .ok (some b))
    (hlow : (b : Int) < 10 ^ 14) :
    processWallet env tc key s =
      ⟨.ok (), (retry (balanceOfOp env sender) MAX_RETRIES RETRY_DELAY s).net,
        [Event.processing sender] ++ (retry (balanceOfOp env sender) MAX_RETRIES RETRY_DELAY s).log
          ++ [Event.insufficientBalance]⟩ := by
  simp only [processWallet, hw, hb, minBalance_eq, hlow, if_true]

theorem processWallet_of_balance {σ : Type} (env : Env σ) (tc : Int) (key : PrivateKey)
    (s : σ) (sender : Address) (b : Nat) (hw : env.walletAddress key = .ok sender)
    (hb : (retry (balanceOfOp env sender) MAX_RETRIES RETRY_DELAY s).result = .ok (some b))
    (hhigh : ¬ (b : Int) < 10 ^ 14) :
    processWallet env tc key s =
      ⟨.ok (),
        (transferLoop env sender tc tc.toNat 1
          (retry (balanceOfOp env sender) MAX_RETRIES RETRY_DELAY s).net).net,
        [Event.processing sender] ++ (retry (balanceOfOp env sender) MAX_RETRIES RETRY_DELAY s).log
          ++ (transferLoop env sender tc tc.toNat 1
            (retry (balanceOfOp env sender) MAX_RETRIES RETRY_DELAY s).net).log
          ++ [Event.finished sender]⟩ := by
  have hok := (transferLoop_obs env sender tc tc.toNat 1
    (retry (balanceOfOp env sender) MAX_RETRIES RETRY_DELAY s).net (by omega)).1
  simp only [processWallet, hw, hb, minBalance_eq, hhigh, if_false, hok]

/-- What the processing of one valid key contributes: it completes normally
and announces its wallet, once. -/
theorem processWallet_obs {σ : Type} (env : Env σ) (tc : Int) (key : PrivateKey) (s : σ)
    (sender : Address) (hw : env.walletAddress key = .ok sender) :
    (processWallet env tc key s).result = .ok ()
      ∧ (processWallet env tc key s).log.filterMap Event.processedSender = [sender] := by
  obtain ⟨k, _, hlog, hne⟩ := retry_value (NetCall.balanceOf sender) (env.balanceOf sender) s
  cases hres : (retry (balanceOfOp env sender) MAX_RETRIES RETRY_DELAY s).result with
  | error e =>
    rw [processWallet_of_balance_error env tc key s sender e hw hres, balanceOfOp, hlog]
    simp [Event.processedSender, processedSender_retryTrace]
  | ok v =>
    cases v with
    | none => exact absurd hres hne
    | some b =>
      by_cases hlow : (b : Int) < 10 ^ 14
      · rw [processWallet_of_low_balance env tc key s sender b hw hres hlow, balanceOfOp, hlog]
        simp [Event.processedSender, processedSender_retryTrace]
      · rw [processWallet_of_balance env tc key s sender b hw hres hlow]
        have hloop := (transferLoop_obs env sender tc tc.toNat 1
          (retry (balanceOfOp env sender) MAX_RETRIES RETRY_DELAY s).net (by omega)).2.2.1
        simp only [List.filterMap_append, hloop]
        rw [balanceOfOp, hlog]
        simp [Event.processedSender, processedSender_retryTrace]

/-- The wallet loop over valid keys completes normally and announces the
wallets of the keys, each once, in the order of the list. -/
theorem walletLoop_obs {σ : Type} (env : Env σ) (tc : Int) :
    ∀ (keys : List PrivateKey) (addrs : List Address) (s : σ),
      keys.map env.walletAddress = addrs.map Except.ok →
      (walletLoop env tc keys s).result = .ok ()
        ∧ (walletLoop env tc keys s).log.filterMap Event.processedSender = addrs := by
  intro keys
  induction keys with
  | nil =>
    intro addrs s h
    cases addrs with
    | nil => simp [walletLoop]
    | cons a rest => simp at h
  | cons key rest ih =>
    intro addrs s h
    cases addrs with
    | nil => simp at h
    | cons a as =>
      simp only [List.map_cons, List.cons.injEq] at h
      obtain ⟨p1, p2⟩ := processWallet_obs env tc key s a h.1
      obtain ⟨q1, q2⟩ := ih as (processWallet env tc key s).net h.2
      simp only [walletLoop, p1, q1, List.filterMap_append, p2, q2]
      simp

/-- C3: for a funding wallet whose balance query (through `retry`) succeeds
with balance `b`: below `10^14` base units the wallet is skipped at once, with
no recipient generation and no `transfer` call; at `10^14` or above (the
bound included) the transfer loop is run for it. -/
theorem balance_gate {σ : Type} (env : Env σ) (tc : Int) (key : PrivateKey) (s : σ)
    (sender : Address) (b : Nat) (hw : env.walletAddress key = .ok sender)
    (hb : (retry (balanceOfOp env sender) MAX_RETRIES RETRY_DELAY s).result = .ok (some b)) :
    (b < 10 ^ 14 →
        processWallet env tc key s =
          ⟨.ok (), (retry (balanceOfOp env sender) MAX_RETRIES RETRY_DELAY s).net,
            [Event.processing sender]
              ++ (retry (balanceOfOp env sender) MAX_RETRIES RETRY_DELAY s).log
              ++ [Event.insufficientBalance]⟩
          ∧ (processWallet env tc key s).log.countP Event.isGenerated = 0
          ∧ (processWallet env tc key s).log.countP Event.isTransferCall = 0)
      ∧ (10 ^ 14 ≤ b →
        processWallet env tc key s =
          ⟨.ok (),
            (transferLoop env sender tc tc.toNat 1
              (retry (balanceOfOp env sender) MAX_RETRIES RETRY_DELAY s).net).net,
            [Event.processing sender]
              ++ (retry (balanceOfOp env sender) MAX_RETRIES RETRY_DELAY s).log
              ++ (transferLoop env sender tc tc.toNat 1
                (retry (balanceOfOp env sender) MAX_RETRIES RETRY_DELAY s).net).log
              ++ [Event.finished sender]⟩) := by
  constructor
  · intro hlow
    have hlow2 : (b : Int) < 10 ^ 14 := by exact_mod_cast hlow
    have hp := processWallet_of_low_balance env tc key s sender b hw hb hlow2
    obtain ⟨k, _, hlog, _⟩ := retry_value (NetCall.balanceOf sender) (env.balanceOf sender) s
    refine ⟨hp, ?_, ?_⟩
    · rw [hp, balanceOfOp, hlog]
      simp [Event.isGenerated, isGenerated_retryTrace]
    · rw [hp, balanceOfOp, hlog]
      simp [Event.isTransferCall, isTransferCall_retryTrace_balanceOf]
  · intro hhigh
    have hhigh2 : ¬ (b : Int) < 10 ^ 14 := by
      have : ((10 ^ 14 : Nat) : Int) ≤ b := by exact_mod_cast hhigh
      push_cast at this
      omega
    exact processWallet_of_balance env tc key s sender b hw hb hhigh2

theorem balance_gate_witness :
    (processWallet (counterEnv lateReceipt) 1 1 0).log
        = [Event.processing 101, Event.call (NetCall.balanceOf 101), Event.insufficientBalance]
      ∧ (processWallet (counterEnv lateReceipt) 1 2 0).log
        = [Event.processing 102]
          ++ (retry (balanceOfOp (counterEnv lateReceipt) 102) MAX_RETRIES RETRY_DELAY 0).log
          ++ (transferLoop (counterEnv lateReceipt) 102 1 1 1 1).log
          ++ [Event.finished 102] :=
  ⟨congrArg Run.log
      ((balance_gate (counterEnv lateReceipt) 1 1 0 101 0 rfl rfl).1 (by decide)).1,
    congrArg Run.log
      ((balance_gate (counterEnv lateReceipt) 1 2 0 102 (10 ^ 14) rfl rfl).2 (le_refl _))⟩

/-- C4: for an eligible wallet, every `transactionCount >= 0` and every
behaviour of the network, the transfer loop completes normally with exactly
`transactionCount` recipient generations, numbered `1, 2, ...` in order, and
exactly `transactionCount` dispatches, each of one to five `transfer`
attempts; and every iteration within the count, whatever happens in it, is
followed by the rest of the loop from `i + 1`. -/
theorem transfer_loop_runs_every_iteration {σ : Type} (env : Env σ) (sender : Address)
    (tc : Int) (s : σ) (htc : 0 ≤ tc) :
    (transferLoop env sender tc tc.toNat 1 s).result = .ok ()
      ∧ (transferLoop env sender tc tc.toNat 1 s).log.filterMap Event.generatedIndex
          = (List.range tc.toNat).map (fun (j : Nat) => 1 + (j : Int))
      ∧ (((transferLoop env sender tc tc.toNat 1 s).log.countP Event.isGenerated : Nat) : Int)
          = tc
      ∧ (((transferLoop env sender tc tc.toNat 1 s).log.countP Event.isDispatchEnd : Nat) : Int)
          = tc
      ∧ tc ≤ (((transferLoop env sender tc tc.toNat 1 s).log.countP Event.isTransferCall : Nat)
          : Int)
      ∧ (((transferLoop env sender tc tc.toNat 1 s).log.countP Event.isTransferCall : Nat) : Int)
          ≤ 5 * tc
      ∧ ∀ (n : Nat) (i : Int) (s0 : σ), i ≤ tc →
          (transferIteration env sender i s0).result = .ok ()
            ∧ transferLoop env sender tc (n + 1) i s0 =
              ⟨(transferLoop env sender tc n (i + 1) (transferIteration env sender i s0).net).result,
                (transferLoop env sender tc n (i + 1) (transferIteration env sender i s0).net).net,
                (transferIteration env sender i s0).log
                  ++ (transferLoop env sender tc n (i + 1)
                    (transferIteration env sender i s0).net).log⟩ := by
  obtain ⟨h1, h2, _, h4, h5, h6, h7⟩ := transferLoop_obs env sender tc tc.toNat 1 s (by omega)
  refine ⟨h1, h2, ?_, ?_, ?_, ?_, ?_⟩
  · rw [h4]; omega
  · rw [h5]; omega
  · omega
  · omega
  · intro n i s0 hi
    exact ⟨(transferIteration_obs env sender i s0).1, transferLoop_succ env sender tc n i s0 hi⟩

theorem transfer_loop_runs_every_iteration_witness :
    (transferLoop rejectingEnv 101 2 2 1 0).result = .ok ()
      ∧ (transferLoop rejectingEnv 101 2 2 1 0).log.filterMap Event.generatedIndex = [1, 2]
      ∧ (((transferLoop rejectingEnv 101 2 2 1 0).log.countP Event.isDispatchEnd : Nat) : Int)
          = 2 :=
  have h := transfer_loop_runs_every_iteration rejectingEnv 101 2 0 (by decide)
  ⟨h.1, h.2.1, h.2.2.2.1⟩

/-- A key that yields no wallet is outside what the run absorbs: the
constructor throws outside every `try`, and the run ends with exit code 1. -/
theorem run_aborts_on_malformed_key {σ : Type} (env : Env σ) (key : PrivateKey)
    (rest : List PrivateKey) (tc : Int) (s : σ) (e : JsError)
    (hw : env.walletAddress key = .error e) :
    main env (key :: rest) tc s = ⟨1, s, [Event.unexpectedError e.message]⟩ := by
  simp [main, walletLoop, processWallet, hw]

/-- C7: for every list of keys of funding wallets (every key yields a wallet)
and every behaviour of the network calls, the run exits with code 0 after
announcing completion, having taken up every wallet exactly once in the order
of the list; in particular a balance query that exhausts its retries ends the
processing of its own wallet only, normally. -/
theorem run_processes_every_wallet {σ : Type} (env : Env σ) (keys : List PrivateKey)
    (addrs : List Address) (tc : Int) (s : σ)
    (hkeys : keys.map env.walletAddress = addrs.map Except.ok) :
    (main env keys tc s).result = 0
      ∧ (main env keys tc s).log.filterMap Event.processedSender = addrs
      ∧ (main env keys tc s).log.getLast? = some Event.allCompleted
      ∧ ∀ (key : PrivateKey) (sender : Address) (s0 : σ) (e : JsError),
          env.walletAddress key = .ok sender →
          (retry (balanceOfOp env sender) MAX_RETRIES RETRY_DELAY s0).result = .error e →
          processWallet env tc key s0 =
            ⟨.ok (), (retry (balanceOfOp env sender) MAX_RETRIES RETRY_DELAY s0).net,
              [Event.processing sender]
                ++ (retry (balanceOfOp env sender) MAX_RETRIES RETRY_DELAY s0).log
                ++ [Event.balanceCheckFailed sender]⟩ := by
  obtain ⟨h1, h2⟩ := walletLoop_obs env tc keys addrs s hkeys
  refine ⟨?_, ?_, ?_, ?_⟩
  · simp only [main, h1]
  · simp only [main, h1, List.filterMap_append, h2]
    simp [Event.processedSender]
  · simp only [main, h1]
    simp
  · intro key sender s0 e hw hb
    exact processWallet_of_balance_error env tc key s0 sender e hw hb

theorem run_processes_every_wallet_witness :
    (main deadEnv [1, 2] 3 0).result = 0
      ∧ (main deadEnv [1, 2] 3 0).log.filterMap Event.processedSender = [101, 102]
      ∧ (main deadEnv [1, 2] 3 0).log.getLast? = some Event.allCompleted :=
  have h := run_processes_every_wallet deadEnv [1, 2] [101, 102] 3 0 rfl
  ⟨h.1, h.2.1, h.2.2.1⟩

theorem isReceiptCall_retryTrace_receipt (h : TxHash) (M d : Int) (k : Nat) :
    (retryTrace (NetCall.getTransactionReceipt h) M d k).countP Event.isReceiptCall = k + 1 := by
  rw [← retryTraceFrom_zero]
  exact countP_retryTraceFrom_call _ _ M d rfl (fun _ _ => rfl) (fun _ => rfl) k 0

/-- C9, amended: when the transfer of iteration `i` was submitted as `tx` and
the receipt lookup raises an exception on each of its five attempts, the
first four exceptions are retried (warning and sleep), and only the fifth is
caught and reported as an error; the lookup is invoked five times in all and
not again, the iteration completes normally, and the loop goes on with
iteration `i + 1`. -/
theorem poll_exception_after_retries {σ : Type} (env : Env σ) (sender : Address) (tc : Int)
    (n : Nat) (i : Int) (s0 s1 s2 s3 : σ) (receiver : Address) (draw : ℚ) (amount : Int)
    (tx : Tx) (dlog : List Event) (hi : i ≤ tc)
    (hgen : env.createRandom s0 = (receiver, s1))
    (hdraw : env.random s1 = (draw, s2))
    (ha : amountToSend draw = .ok amount)
    (htx : retry (transferOp env sender receiver amount) MAX_RETRIES RETRY_DELAY s2
      = ⟨.ok (some tx), s3, dlog⟩)
    (hfail : ∀ j, j < 5 →
      ∃ e, (env.getTransactionReceipt tx.hash
        (netAfter (env.getTransactionReceipt tx.hash) s3 j)).1 = .error e) :
    ∃ e : JsError,
      (env.getTransactionReceipt tx.hash
          (netAfter (env.getTransactionReceipt tx.hash) s3 4)).1 = .error e
        ∧ transferIteration env sender i s0 =
          ⟨.ok (), netAfter (env.getTransactionReceipt tx.hash) s3 5,
            Event.generated i receiver ::
              (dlog ++ [Event.submitted i tx.hash sender receiver amount, Event.sleep 10]
                ++ (retryTrace (NetCall.getTransactionReceipt tx.hash) MAX_RETRIES RETRY_DELAY 4
                  ++ [Event.statusError e.message]))⟩
        ∧ (retryTrace (NetCall.getTransactionReceipt tx.hash) MAX_RETRIES RETRY_DELAY 4).countP
            Event.isReceiptCall = 5
        ∧ (retryTrace (NetCall.getTransactionReceipt tx.hash) MAX_RETRIES RETRY_DELAY 4).countP
            Event.isWarning = 4
        ∧ transferLoop env sender tc (n + 1) i s0 =
          ⟨(transferLoop env sender tc n (i + 1) (transferIteration env sender i s0).net).result,
            (transferLoop env sender tc n (i + 1) (transferIteration env sender i s0).net).net,
            (transferIteration env sender i s0).log
              ++ (transferLoop env sender tc n (i + 1)
                (transferIteration env sender i s0).net).log⟩ := by
  obtain ⟨e, he⟩ := hfail 4 (by decide)
  have hrun := retry_trace (NetCall.getTransactionReceipt tx.hash)
    (env.getTransactionReceipt tx.hash) MAX_RETRIES RETRY_DELAY 4 s3 (by decide)
    (fun j hj => hfail j (by omega)) (Or.inr (by decide))
  rw [he] at hrun
  have hpoll : pollReceipt env tx.hash s3 =
      ⟨(), netAfter (env.getTransactionReceipt tx.hash) s3 5,
        retryTrace (NetCall.getTransactionReceipt tx.hash) MAX_RETRIES RETRY_DELAY 4
          ++ [Event.statusError e.message]⟩ := by
    rw [pollReceipt_of_error env tx.hash s3 e (by rw [receiptOp, hrun]), receiptOp, hrun]
  refine ⟨e, he, ?_, isReceiptCall_retryTrace_receipt _ _ _ 4, ?_,
    transferLoop_succ env sender tc n i s0 hi⟩
  · unfold transferIteration
    simp only [hgen, hdraw, ha, dispatch, htx, hpoll]
  · rw [← retryTraceFrom_zero]
    exact countP_isWarning_retryTraceFrom _ _ _ 4 0

theorem poll_exception_after_retries_witness :
    ∃ e : JsError,
      (deadReceipt 2 (netAfter (deadReceipt 2) 3 4)).1 = .error e
        ∧ (transferIteration (counterEnv deadReceipt) 101 1 0).log =
            Event.generated 1 5000 ::
              ([Event.call (NetCall.transfer 101 5000
                    ((toFixed (amountNumber (1 / 2)) 6).mantissa * 10 ^ 12))]
                ++ [Event.submitted 1 2 101 5000
                    ((toFixed (amountNumber (1 / 2)) 6).mantissa * 10 ^ 12), Event.sleep 10]
                ++ (retryTrace (NetCall.getTransactionReceipt 2) MAX_RETRIES RETRY_DELAY 4
                  ++ [Event.statusError e.message])) :=
  have ⟨e, h1, h2, _⟩ := poll_exception_after_retries (counterEnv deadReceipt) 101 1 0 1
    0 1 2 3 5000 (1 / 2) ((toFixed (amountNumber (1 / 2)) 6).mantissa * 10 ^ 12) ⟨2⟩
    [Event.call (NetCall.transfer 101 5000
      ((toFixed (amountNumber (1 / 2)) 6).mantissa * 10 ^ 12))]
    (le_refl _) rfl rfl (amountToSend_eq (1 / 2)) rfl (fun _ _ => ⟨_, rfl⟩)
  ⟨e, h1, congrArg Run.log h2⟩

end AutoTf
